import Mathlib

/-!
Verification of the C0lorNote note model.

Two data models are embedded here, following the two implementations in the
repository:

* `DBModel` embeds the SQLAlchemy-backed model of `src/models/note.py`
  (class `Note` with columns id, title, content, plain_content,
  created_date, modified_date, color, is_pinned, category_id, and a
  many-to-many `tags` relationship).  Timestamps are modelled as `Nat`
  instants; the database tables are modelled as Lean lists; an SQL
  `ORDER BY` is modelled as a merge sort with the corresponding boolean
  comparison; SQL `NULL` becomes `Option`; a Python `raise` becomes the
  `Except.error` branch.
* `ModernApp` embeds the flat-file model of `modern_colornote.py`
  (class `Note` with title, content, is_code, tags, category,
  created_date, modified_date, serialized through `to_dict` /
  `from_dict` with ISO-format timestamps).
-/

namespace DBModel

/-- Row of the `notes` table (`src/models/note.py`, class `Note`).
`tags` holds the tag ids associated to the note through the `note_tag`
association table.  Nullable columns are `Option`s; timestamps are `Nat`
instants. -/
structure Note where
  id : String
  title : Option String
  content : Option String
  plain_content : Option String
  created_date : Nat
  modified_date : Nat
  color : Option String
  is_pinned : Bool
  category_id : Option String
  tags : List String
  deriving DecidableEq, Repr

/-- Numeric value of a boolean for SQL `ORDER BY ... DESC` on a boolean
column: true sorts as 1, false as 0. -/
def pinVal (b : Bool) : Nat := if b then 1 else 0

/-- Comparison realising `order_by(Note.is_pinned.desc(), Note.modified_date.desc())`:
`a` may come before `b` iff `a` is higher in the (pinned desc, modified desc)
lexicographic order. -/
def noteLE (a b : Note) : Bool :=
  decide (pinVal b.is_pinned < pinVal a.is_pinned) ||
  (a.is_pinned == b.is_pinned && decide (b.modified_date ≤ a.modified_date))

/-- Sort a result set the way every query in `src/models/note.py` orders it:
pinned descending, then modified date descending. -/
def sortNotes (notes : List Note) : List Note :=
  notes.mergeSort noteLE

/-- Embedding of `Note.get_all` (`src/models/note.py` lines 254-275): all
rows of the notes table, ordered by pinned desc then modified desc (the
`joinedload` options only affect eager loading, not the result set). -/
def Note.get_all (notes : List Note) : List Note :=
  sortNotes notes

/-- Ordering property the specification asks of query results: any earlier
note is pinned whenever a later one is, and among notes with equal pinned
flag the modified dates are non-increasing. -/
def specOrder (a b : Note) : Prop :=
  (b.is_pinned = true → a.is_pinned = true) ∧
  (a.is_pinned = b.is_pinned → b.modified_date ≤ a.modified_date)

/-! String machinery for `Note.search`: Python `str.split()` and the SQL
`ILIKE` operator.  The code interpolates the search word unescaped into the
pattern string (`f"%{term}%"`), so a `%` or `_` inside the word keeps its
LIKE wildcard meaning: `%` matches any run of characters and `_` any single
character. -/

/-- Lowercase a character list (the case folding done by `ilike`, which the
SQLite backend compiles to `lower(col) LIKE lower(pattern)`). -/
def lowerChars (cs : List Char) : List Char := cs.map Char.toLower

/-- SQL `LIKE` matching of a whole string against a pattern: `%` matches
any (possibly empty) run of characters, `_` matches exactly one character,
every other pattern character matches itself, and the pattern must consume
the entire string. -/
def likeMatch : List Char → List Char → Bool
  | [], s => s.isEmpty
  | c :: p, s =>
    if c = '%' then s.tails.any (fun s2 => likeMatch p s2)
    else
      match s with
      | [] => false
      | d :: s2 => (c == '_' || c == d) && likeMatch p s2

/-- Semantics of `column ILIKE '%' || pat || '%'` on a nullable column with
`pat` interpolated unescaped: both sides are case-folded and any `%` or `_`
inside `pat` stays a wildcard; SQL `NULL` compares to nothing, so a `none`
column never matches. -/
def olike (column : Option String) (pat : String) : Bool :=
  match column with
  | none => false
  | some s => likeMatch ('%' :: lowerChars pat.data ++ ['%']) (lowerChars s.data)

/-- Characters Python `str.split()` treats as whitespace: the full Unicode
whitespace set (control whitespace, the Zs space separators, and the line
and paragraph separators). -/
def isPySpace (c : Char) : Bool :=
  c == '\t' || c == '\n' || c == '\x0b' || c == '\x0c' || c == '\r' ||
  c == '\x1c' || c == '\x1d' || c == '\x1e' || c == '\x1f' || c == ' ' ||
  c == '\x85' || c == '\xa0' || c == '\u1680' || c == '\u2000' ||
  c == '\u2001' || c == '\u2002' || c == '\u2003' || c == '\u2004' ||
  c == '\u2005' || c == '\u2006' || c == '\u2007' || c == '\u2008' ||
  c == '\u2009' || c == '\u200a' || c == '\u2028' || c == '\u2029' ||
  c == '\u202f' || c == '\u205f' || c == '\u3000'

/-- Worker for Python `str.split()`: accumulates the current word reversed. -/
def splitWordsAux : List Char → List Char → List (List Char)
  | [], acc => if acc.isEmpty then [] else [acc.reverse]
  | c :: cs, acc =>
    if isPySpace c then
      if acc.isEmpty then splitWordsAux cs []
      else acc.reverse :: splitWordsAux cs []
    else splitWordsAux cs (c :: acc)

/-- Python `query_text.split()`: split on whitespace runs, dropping empties. -/
def pySplit (s : String) : List String :=
  (splitWordsAux s.data []).map (fun cs => String.mk cs)

/-- Text condition built in `Note.search`: every search term must match the
title or the plain content (`and_` over per-term `or_(title.ilike, plain_content.ilike)`). -/
def textCond (terms : List String) (n : Note) : Bool :=
  terms.all (fun t => olike n.title t || olike n.plain_content t)

/-- Stage of `Note.search`: `if query_text:` add the `and_` of the per-term
conditions built from `query_text.split()`. -/
def applyTextFilter (query_text : String) (s : List Note) : List Note :=
  if query_text.isEmpty then s
  else s.filter (textCond (pySplit query_text))

/-- Stage of `Note.search`: `if category_id:` filter on equality with the
category column (Python truthiness: `None` and the empty string skip it). -/
def applyCategoryFilter (category_id : Option String) (s : List Note) : List Note :=
  match category_id with
  | none => s
  | some c => if c.isEmpty then s else s.filter (fun n => n.category_id == some c)

/-- Stage of `Note.search`: `if tag_ids and len(tag_ids) > 0:` one
`tags.any(Tag.id == tag_id)` filter per requested tag id. -/
def applyTagFilter (tag_ids : Option (List String)) (s : List Note) : List Note :=
  match tag_ids with
  | none => s
  | some tids =>
    if tids.isEmpty then s
    else tids.foldl (fun acc tid => acc.filter (fun n => n.tags.contains tid)) s

/-- Stage of `Note.search`: `if pinned_only:` keep pinned notes only. -/
def applyPinnedFilter (pinned_only : Bool) (s : List Note) : List Note :=
  if pinned_only then s.filter (fun n => n.is_pinned) else s

/-- Embedding of `Note.search` (`src/models/note.py` lines 303-357): the
filters are conjoined in the order the code adds them to the query, and the
result is ordered by pinned desc then modified desc. -/
def Note.search (query_text : String) (category_id : Option String)
    (tag_ids : Option (List String)) (pinned_only : Bool)
    (notes : List Note) : List Note :=
  sortNotes
    (applyPinnedFilter pinned_only
      (applyTagFilter tag_ids
        (applyCategoryFilter category_id
          (applyTextFilter query_text notes))))

/-- The literal-substring relation the specification asserts: `w` occurs as
a case-insensitive contiguous substring of `s`.  This is the reading the
spec gives of the text match; the code's unescaped `ILIKE` interpolation
does not satisfy it when `w` contains a wildcard. -/
def OccursCI (w s : String) : Prop :=
  ∃ l r, lowerChars s.data = l ++ lowerChars w.data ++ r

/-- Per-word condition under the spec's substring reading. -/
def WordHit (w : String) (n : Note) : Prop :=
  (∃ t, n.title = some t ∧ OccursCI w t) ∨
  (∃ p, n.plain_content = some p ∧ OccursCI w p)

/-- Search predicate under the spec's substring reading: every word of the
query occurs as a literal substring of a field, and the category,
tag-membership and pinned filters hold conjointly. -/
def SearchMatch (query_text : String) (category_id : Option String)
    (tag_ids : Option (List String)) (pinned_only : Bool) (n : Note) : Prop :=
  (∀ w ∈ pySplit query_text, WordHit w n) ∧
  (∀ c, category_id = some c → n.category_id = some c) ∧
  (∀ tids, tag_ids = some tids → ∀ t ∈ tids, t ∈ n.tags) ∧
  (pinned_only = true → n.is_pinned = true)

/-- Declarative SQL `LIKE` matching relation: the pattern (first list)
matches the whole string (second list), `%` matching any run of characters,
`_` matching exactly one, every other character matching itself. -/
inductive LikeM : List Char → List Char → Prop
  | nil : LikeM [] []
  | one (c d : Char) (p s : List Char) (hc : ¬c = '%') (hcd : c = '_' ∨ c = d)
      (hm : LikeM p s) : LikeM (c :: p) (d :: s)
  | pct (p s1 s2 : List Char) (hm : LikeM p s2) : LikeM ('%' :: p) (s1 ++ s2)

/-- The relation the program actually implements per word: some segment of
the case-folded string is matched by the case-folded word read as a LIKE
fragment (so a `%` or `_` in the word is a wildcard); for a wildcard-free
word this degenerates to the substring relation. -/
def OccursLike (w s : String) : Prop :=
  ∃ l mid r, lowerChars s.data = l ++ mid ++ r ∧ LikeM (lowerChars w.data) mid

/-- Per-word condition under the faithful LIKE reading. -/
def WordHitLike (w : String) (n : Note) : Prop :=
  (∃ t, n.title = some t ∧ OccursLike w t) ∨
  (∃ p, n.plain_content = some p ∧ OccursLike w p)

/-- Search predicate under the faithful LIKE reading: every word of the
query matches a segment of a field as a LIKE fragment, and the category,
tag-membership and pinned filters hold conjointly. -/
def SearchMatchLike (query_text : String) (category_id : Option String)
    (tag_ids : Option (List String)) (pinned_only : Bool) (n : Note) : Prop :=
  (∀ w ∈ pySplit query_text, WordHitLike w n) ∧
  (∀ c, category_id = some c → n.category_id = some c) ∧
  (∀ tids, tag_ids = some tids → ∀ t ∈ tids, t ∈ n.tags) ∧
  (pinned_only = true → n.is_pinned = true)

/-- Keyword arguments of `Note.update` (`src/models/note.py` lines 427-484):
`none` is Python `None`, meaning the field is absent from the sparse patch. -/
structure UpdateArgs where
  title : Option String
  content : Option String
  plain_content : Option String
  color : Option String
  is_pinned : Option Bool
  category_id : Option String
  tag_names : Option (List String)
  deriving DecidableEq, Repr

/-- Whether the sparse patch gives some column of the notes row a value
different from its current one: only then does the ORM flush an UPDATE
statement on the row (and fire the `onupdate` hook of `modified_date`).
Setting an attribute to its current value produces no net change and hence
no UPDATE, and `tag_names` only rewrites the `note_tag` association table,
never the notes row itself. -/
def UpdateArgs.changesRow (u : UpdateArgs) (n : Note) : Bool :=
  (match u.title with | some t => !(n.title == some t) | none => false) ||
  (match u.content with | some c => !(n.content == some c) | none => false) ||
  (match u.plain_content with
    | some c => !(n.plain_content == some c) | none => false) ||
  (match u.color with | some c => !(n.color == some c) | none => false) ||
  (match u.is_pinned with | some b => !(n.is_pinned == b) | none => false) ||
  (match u.category_id with
    | some c => !(n.category_id == some c) | none => false)

/-- Apply the sparse patch of `Note.update` to one row: each `if x is not
None: note.x = x` branch, the `tag_names` branch replacing the tag set via
`Tag.get_or_create` (modelled by the name-to-id resolver `getOrCreate`), and
the `onupdate=datetime.datetime.now` hook on `modified_date` firing exactly
when the flush emits an UPDATE on the row, i.e. when some supplied column
value differs from the current one. -/
def applyUpdate (getOrCreate : String → String) (u : UpdateArgs) (now : Nat)
    (n : Note) : Note :=
  { id := n.id
    title := match u.title with | some t => some t | none => n.title
    content := match u.content with | some c => some c | none => n.content
    plain_content := match u.plain_content with | some c => some c | none => n.plain_content
    created_date := n.created_date
    modified_date := if u.changesRow n then now else n.modified_date
    color := match u.color with | some c => some c | none => n.color
    is_pinned := match u.is_pinned with | some b => b | none => n.is_pinned
    category_id := match u.category_id with | some c => some c | none => n.category_id
    tags := match u.tag_names with | some ns => ns.map getOrCreate | none => n.tags }

/-- Embedding of `Note.update` (`src/models/note.py` lines 427-484): look up
the first row whose id matches (`query.filter(Note.id == self.id).first()`),
raise when there is none (`raise ValueError(...)`, the `Except.error`
branch), otherwise apply the sparse patch to that row and keep every other
row as it is. -/
def Note.update (getOrCreate : String → String) (noteId : String)
    (u : UpdateArgs) (now : Nat) : List Note → Except String (List Note)
  | [] => .error "not found"
  | n :: rest =>
    if n.id = noteId then .ok (applyUpdate getOrCreate u now n :: rest)
    else
      match Note.update getOrCreate noteId u now rest with
      | .ok out => .ok (n :: out)
      | .error e => .error e

/-- Embedding of `Note.toggle_pin` (`src/models/note.py` lines 528-542):
flip the pinned flag of the first row whose id matches and return the new
flag; when no row matches, return the receiver's in-memory `self.is_pinned`
unchanged — the code has no raise on this path.  The found branch also
refreshes `modified_date` through the column's `onupdate` hook. -/
def Note.toggle_pin (noteId : String) (selfPinned : Bool) (now : Nat) :
    List Note → Except String (Bool × List Note)
  | [] => .ok (selfPinned, [])
  | n :: rest =>
    if n.id = noteId then
      .ok (!n.is_pinned, { n with is_pinned := !n.is_pinned, modified_date := now } :: rest)
    else
      match Note.toggle_pin noteId selfPinned now rest with
      | .ok (b, out) => .ok (b, n :: out)
      | .error e => .error e

/-- Embedding of `Note.delete_by_id` (`src/models/note.py` lines 506-526):
delete the first row whose id matches and report `true`; report `false`
without failing when no row matches. -/
def Note.delete_by_id (noteId : String) : List Note → Bool × List Note
  | [] => (false, [])
  | n :: rest =>
    if n.id = noteId then (true, rest)
    else ((Note.delete_by_id noteId rest).1, n :: (Note.delete_by_id noteId rest).2)

/-- Row of the `tags` table (`src/models/note.py`, class `Tag`). -/
structure TagRow where
  id : String
  name : String
  color : Option String
  deriving DecidableEq, Repr

/-- Database state for the aggregate queries: the notes table (each note
carrying its associated tag ids, i.e. its `note_tag` rows) and the tags
table. -/
structure DB where
  notes : List Note
  tags : List TagRow
  deriving Repr

/-- Rows of the `note_tag` association table induced by the notes. -/
def noteTagRows (db : DB) : List (String × String) :=
  db.notes.flatMap (fun n => n.tags.map (fun t => (n.id, t)))

/-- Embedding of `Note.count_by_tag` (`src/models/note.py` lines 630-647):
inner-join the tags table with `note_tag` and group by tag id, so a tag with
no association rows yields no group and hence no entry. -/
def Note.count_by_tag (db : DB) : List (String × Nat) :=
  db.tags.filterMap (fun t =>
    if (noteTagRows db).countP (fun r => r.2 == t.id) = 0 then none
    else some (t.id, (noteTagRows db).countP (fun r => r.2 == t.id)))

/-- Key written by the dict comprehension of `count_by_category`:
`str(r[0] or 'uncategorized')`, where Python truthiness sends both `None`
and the empty string to the sentinel. -/
def categoryKey (k : Option String) : String :=
  match k with
  | none => "uncategorized"
  | some s => if s.isEmpty then "uncategorized" else s

/-- Embedding of `Note.count_by_category` (`src/models/note.py` lines
611-627): group the notes table by the `category_id` column (every note
belongs to a group, the `NULL` group included) and count each group. -/
def Note.count_by_category (db : DB) : List (String × Nat) :=
  ((db.notes.map (fun n => n.category_id)).dedup).map (fun k =>
    (categoryKey k, db.notes.countP (fun n => n.category_id == k)))

/-- Number of notes referencing a tag id (claim-side count). -/
def tagRefCount (db : DB) (tid : String) : Nat :=
  db.notes.countP (fun n => decide (tid ∈ n.tags))

end DBModel

namespace ModernApp

/-- Naive datetime as Python's `datetime.datetime` stores it: calendar and
clock fields down to microseconds. -/
structure PyDateTime where
  year : Nat
  month : Nat
  day : Nat
  hour : Nat
  minute : Nat
  second : Nat
  microsecond : Nat
  deriving DecidableEq, Repr

/-- Field ranges of a real `datetime.datetime` value (Python enforces
`MINYEAR = 1`, `MAXYEAR = 9999`, and the usual clock bounds). -/
def PyDateTime.Valid (d : PyDateTime) : Prop :=
  0 < d.year ∧ d.year < 10000 ∧ 0 < d.month ∧ d.month < 13 ∧
  0 < d.day ∧ d.day < 32 ∧ d.hour < 24 ∧ d.minute < 60 ∧
  d.second < 60 ∧ d.microsecond < 1000000

instance (d : PyDateTime) : Decidable d.Valid := by
  unfold PyDateTime.Valid
  infer_instance

/-- Mixed-radix encoding of a datetime; on in-range fields it orders exactly
as Python's field-lexicographic datetime comparison. -/
def PyDateTime.key (d : PyDateTime) : Nat :=
  (((((d.year * 13 + d.month) * 32 + d.day) * 24 + d.hour) * 60 +
      d.minute) * 60 + d.second) * 1000000 + d.microsecond

/-- Datetime comparison (`d1 <= d2` on two Python datetimes). -/
def PyDateTime.le (a b : PyDateTime) : Prop := a.key ≤ b.key

instance (a b : PyDateTime) : Decidable (a.le b) := by
  unfold PyDateTime.le
  infer_instance

/-- Two zero-padded decimal digits. -/
def pad2 (n : Nat) : List Char :=
  [Nat.digitChar (n / 10 % 10), Nat.digitChar (n % 10)]

/-- Four zero-padded decimal digits. -/
def pad4 (n : Nat) : List Char :=
  [Nat.digitChar (n / 1000 % 10), Nat.digitChar (n / 100 % 10),
   Nat.digitChar (n / 10 % 10), Nat.digitChar (n % 10)]

/-- Six zero-padded decimal digits. -/
def pad6 (n : Nat) : List Char :=
  [Nat.digitChar (n / 100000 % 10), Nat.digitChar (n / 10000 % 10),
   Nat.digitChar (n / 1000 % 10), Nat.digitChar (n / 100 % 10),
   Nat.digitChar (n / 10 % 10), Nat.digitChar (n % 10)]

/-- Character sequence of Python `datetime.isoformat()`:
`YYYY-MM-DDTHH:MM:SS`, with the `.ffffff` microsecond suffix only when the
microsecond field is nonzero. -/
def isoChars (d : PyDateTime) : List Char :=
  pad4 d.year ++ '-' :: pad2 d.month ++ '-' :: pad2 d.day ++
    'T' :: pad2 d.hour ++ ':' :: pad2 d.minute ++ ':' :: pad2 d.second ++
    (if d.microsecond = 0 then [] else '.' :: pad6 d.microsecond)

/-- Python `datetime.isoformat()`. -/
def PyDateTime.isoformat (d : PyDateTime) : String :=
  String.mk (isoChars d)

/-- Decimal value of a digit character. -/
def digitVal (c : Char) : Nat := c.toNat - 48

/-- Parse two decimal digits. -/
def parse2 (a b : Char) : Option Nat :=
  if a.isDigit && b.isDigit then some (digitVal a * 10 + digitVal b) else none

/-- Parse four decimal digits. -/
def parse4 (a b c d : Char) : Option Nat :=
  if a.isDigit && b.isDigit && c.isDigit && d.isDigit then
    some (((digitVal a * 10 + digitVal b) * 10 + digitVal c) * 10 + digitVal d)
  else none

/-- Parse six decimal digits. -/
def parse6 (a b c d e f : Char) : Option Nat :=
  if a.isDigit && b.isDigit && c.isDigit && d.isDigit && e.isDigit && f.isDigit then
    some (((((digitVal a * 10 + digitVal b) * 10 + digitVal c) * 10 +
        digitVal d) * 10 + digitVal e) * 10 + digitVal f)
  else none

/-- Python `datetime.fromisoformat` on the shapes `isoformat` emits:
date, `T` or space separator, clock, optional 6-digit fraction.  A string
of any other shape raises in Python, the `none` branch here. -/
def parseIsoChars (cs : List Char) : Option PyDateTime :=
  match cs with
  | y1 :: y2 :: y3 :: y4 :: dash1 :: m1 :: m2 :: dash2 :: d1 :: d2 :: sep ::
      h1 :: h2 :: colon1 :: n1 :: n2 :: colon2 :: s1 :: s2 :: rest =>
    if dash1 = '-' ∧ dash2 = '-' ∧ (sep = 'T' ∨ sep = ' ') ∧
        colon1 = ':' ∧ colon2 = ':' then
      match parse4 y1 y2 y3 y4, parse2 m1 m2, parse2 d1 d2, parse2 h1 h2,
          parse2 n1 n2, parse2 s1 s2 with
      | some y, some mo, some da, some ho, some mi, some se =>
        match rest with
        | [] => some ⟨y, mo, da, ho, mi, se, 0⟩
        | dot :: u1 :: u2 :: u3 :: u4 :: u5 :: u6 :: [] =>
          if dot = '.' then
            match parse6 u1 u2 u3 u4 u5 u6 with
            | some us => some ⟨y, mo, da, ho, mi, se, us⟩
            | none => none
          else none
        | _ => none
      | _, _, _, _, _, _ => none
    else none
  | _ => none

/-- Python `datetime.fromisoformat`. -/
def PyDateTime.fromisoformat (s : String) : Option PyDateTime :=
  parseIsoChars s.data

/-- Note of `modern_colornote.py` (class `Note`, lines 463-474). -/
structure Note where
  title : String
  content : String
  is_code : Bool
  tags : List String
  category : Option String
  created_date : PyDateTime
  modified_date : PyDateTime
  deriving DecidableEq, Repr

/-- Python `tags or []` in the constructor: `None` and the empty list both
give a fresh empty list. -/
def pyOrEmptyList (tags : Option (List String)) : List String :=
  match tags with
  | none => []
  | some ts => if ts.isEmpty then [] else ts

/-- Embedding of `Note.__init__` (`modern_colornote.py` lines 466-473): a
fresh note stamps the current time into both `created_date` and
`modified_date`. -/
def Note.new (title content : String) (is_code : Bool)
    (tags : Option (List String)) (category : Option String)
    (now : PyDateTime) : Note :=
  { title := title, content := content, is_code := is_code,
    tags := pyOrEmptyList tags, category := category,
    created_date := now, modified_date := now }

/-- Dictionary produced by `Note.to_dict` (`modern_colornote.py` lines
475-486): the two timestamps become ISO strings, everything else is carried
as it is. -/
structure NoteDict where
  title : String
  content : String
  is_code : Bool
  tags : List String
  category : Option String
  created_date : String
  modified_date : String
  deriving DecidableEq, Repr

/-- Embedding of `Note.to_dict` (`modern_colornote.py` lines 475-486). -/
def Note.to_dict (n : Note) : NoteDict :=
  { title := n.title, content := n.content, is_code := n.is_code,
    tags := n.tags, category := n.category,
    created_date := n.created_date.isoformat,
    modified_date := n.modified_date.isoformat }

/-- Embedding of `Note.from_dict` (`modern_colornote.py` lines 488-500):
construct through `__init__` from the plain fields, then overwrite both
timestamps with `datetime.fromisoformat` of the stored strings; an
unparsable timestamp raises in Python, the `none` branch here. -/
def Note.from_dict (d : NoteDict) : Option Note :=
  match PyDateTime.fromisoformat d.created_date,
      PyDateTime.fromisoformat d.modified_date with
  | some c, some m =>
    some { Note.new d.title d.content d.is_code (some d.tags) d.category c with
           modified_date := m }
  | _, _ => none

/-- Embedding of `MainWindow.save_current_note` (`modern_colornote.py`
lines 1205-1224): pull the edited content into the note and stamp
`modified_date` with the current time. -/
def Note.save_content (n : Note) (content : String) (now : PyDateTime) : Note :=
  { n with content := content, modified_date := now }

/-- Serialized document written by `MainWindow.save_notes`: the three arrays
of the JSON file. -/
structure SavedDoc where
  notes : List NoteDict
  categories : List String
  tags : List String
  deriving DecidableEq, Repr

/-- Embedding of `MainWindow.save_notes` (`modern_colornote.py` lines
1399-1426): serialize every note through `to_dict` next to the category and
tag name lists. -/
def save_notes (notes : List Note) (categories tags : List String) : SavedDoc :=
  { notes := notes.map Note.to_dict, categories := categories, tags := tags }

/-- Embedding of `MainWindow.create_sample_notes` (`modern_colornote.py`
lines 1367-1397): the two seed notes (one rich-text, one code) and the
default category and tag lists. -/
def create_sample_notes (now : PyDateTime) : List Note :=
  [Note.new "Welcome to C0lorNote!"
      "<h1>Welcome to C0lorNote</h1><p>This is a modern note-taking application with support for rich text and code snippets.</p><p>Features include:</p><ul><li>Rich text editing</li><li>Code editing with syntax highlighting</li><li>Multiple themes (try Matrix, Dreamcore, or Minimalist)</li><li>Organization with tags and categories</li><li>Smart views for recent notes and code snippets</li></ul><p>Get started by creating a new note!</p>"
      false (some ["welcome", "tutorial"]) (some "Getting Started") now,
   Note.new "Python Hello World Example"
      "# A simple Python hello world example\n\ndef greet(name):\n    \"\"\"Return a greeting message\"\"\"\n    return f\"Hello, {name}!\"\n\n# Test the function\nif __name__ == \"__main__\":\n    print(greet(\"World\"))\n    # Press F5 to run this code!"
      true (some ["python", "example"]) (some "Code Snippets") now]

/-- Category list installed by `create_sample_notes`. -/
def sampleCategories : List String :=
  ["Getting Started", "Code Snippets", "Personal", "Work"]

/-- Tag list installed by `create_sample_notes`. -/
def sampleTags : List String :=
  ["welcome", "tutorial", "python", "example", "important"]

/-- List comprehension `[Note.from_dict(nd) for nd in data["notes"]]`: a
parse failure on any element raises out of the whole comprehension. -/
def parseAll : List NoteDict → Option (List Note)
  | [] => some []
  | d :: ds =>
    match Note.from_dict d, parseAll ds with
    | some n, some ns => some (n :: ns)
    | _, _ => none

/-- Embedding of `MainWindow.load_notes` (`modern_colornote.py` lines
1326-1365): `none` is a missing notes file, which yields the seed data; an
existing file is parsed note by note through `from_dict`, any parse failure
falling back to the seed data as the surrounding `except` does. -/
def load_notes (now : PyDateTime) (file : Option SavedDoc) :
    List Note × List String × List String :=
  match file with
  | none => (create_sample_notes now, sampleCategories, sampleTags)
  | some d =>
    match parseAll d.notes with
    | some ns => (ns, d.categories, d.tags)
    | none => (create_sample_notes now, sampleCategories, sampleTags)

/-- Lifecycle of a note inside the running application: freshly created by
`__init__` at a valid instant, content-saved at a later valid instant
(`save_current_note`, under a monotone clock), or recovered from the
persisted form of a live note. -/
inductive ReachableNote : Note → Prop
  | init (title content : String) (is_code : Bool)
      (tags : Option (List String)) (category : Option String)
      (t : PyDateTime) (ht : t.Valid) :
      ReachableNote (Note.new title content is_code tags category t)
  | touch (n : Note) (c : String) (t : PyDateTime) (hn : ReachableNote n)
      (ht : t.Valid) (hmono : n.modified_date.le t) :
      ReachableNote (n.save_content c t)
  | reload (n m : Note) (hn : ReachableNote n)
      (h : Note.from_dict (Note.to_dict n) = some m) :
      ReachableNote m

end ModernApp

namespace DBModel

theorem pinVal_lt_iff (a b : Bool) : pinVal a < pinVal b ↔ (a = false ∧ b = true) := by
  cases a <;> cases b <;> simp [pinVal]

theorem noteLE_trans (a b c : Note) (hab : noteLE a b = true)
    (hbc : noteLE b c = true) : noteLE a c = true := by
  simp only [noteLE, Bool.or_eq_true, decide_eq_true_eq, Bool.and_eq_true,
    beq_iff_eq] at *
  rcases hab with h1 | ⟨h1, h1m⟩ <;> rcases hbc with h2 | ⟨h2, h2m⟩
  · rw [pinVal_lt_iff] at h1 h2
    exact absurd h2.2 (by simp [h1.1])
  · rw [pinVal_lt_iff] at h1 ⊢
    exact Or.inl ⟨h2 ▸ h1.1, h1.2⟩
  · rw [pinVal_lt_iff] at h2 ⊢
    exact Or.inl ⟨h2.1, h1.trans h2.2⟩
  · exact Or.inr ⟨h1.trans h2, h2m.trans h1m⟩

theorem noteLE_total (a b : Note) : (noteLE a b || noteLE b a) = true := by
  simp only [noteLE, Bool.or_eq_true, decide_eq_true_eq, Bool.and_eq_true,
    beq_iff_eq]
  cases a.is_pinned <;> cases b.is_pinned <;> simp [pinVal] <;> omega

theorem noteLE_specOrder (a b : Note) (h : noteLE a b = true) : specOrder a b := by
  simp only [noteLE, Bool.or_eq_true, decide_eq_true_eq, Bool.and_eq_true,
    beq_iff_eq] at h
  rcases h with h | ⟨h, hm⟩
  · rw [pinVal_lt_iff] at h
    exact ⟨fun _ => h.2, fun he => absurd (he.symm.trans h.2) (by simp [h.1])⟩
  · exact ⟨fun hb => h.trans hb, fun _ => hm⟩

theorem sortNotes_perm (notes : List Note) : (sortNotes notes).Perm notes :=
  List.mergeSort_perm notes noteLE

theorem sortNotes_pairwise (notes : List Note) :
    (sortNotes notes).Pairwise specOrder :=
  (List.sorted_mergeSort noteLE_trans noteLE_total notes).imp
    (fun h => noteLE_specOrder _ _ h)

theorem LikeM_nil_iff (s : List Char) : LikeM [] s ↔ s = [] := by
  constructor
  · intro h
    cases h
    rfl
  · rintro rfl
    exact LikeM.nil

theorem LikeM_pct_iff (p s : List Char) :
    LikeM ('%' :: p) s ↔ ∃ s1 s2, s = s1 ++ s2 ∧ LikeM p s2 := by
  constructor
  · intro h
    cases h with
    | one c d p' s' hc hcd hm => exact absurd rfl hc
    | pct p' s1 s2 hm => exact ⟨s1, s2, rfl, hm⟩
  · rintro ⟨s1, s2, rfl, hm⟩
    exact LikeM.pct p s1 s2 hm

theorem LikeM_cons_iff (c : Char) (p s : List Char) (hc : ¬c = '%') :
    LikeM (c :: p) s ↔ ∃ d s2, s = d :: s2 ∧ (c = '_' ∨ c = d) ∧ LikeM p s2 := by
  constructor
  · intro h
    cases h with
    | one c' d p' s' hc' hcd hm => exact ⟨d, s', rfl, hcd, hm⟩
    | pct p' s1 s2 hm => exact absurd rfl hc
  · rintro ⟨d, s2, rfl, hcd, hm⟩
    exact LikeM.one c d p s2 hc hcd hm

theorem likeMatch_iff (p : List Char) :
    ∀ s, likeMatch p s = true ↔ LikeM p s := by
  induction p with
  | nil =>
    intro s
    cases s with
    | nil =>
      simp only [likeMatch, List.isEmpty_nil, LikeM_nil_iff]
    | cons d s2 =>
      simp only [likeMatch, List.isEmpty_cons, LikeM_nil_iff]
      simp
  | cons c p ih =>
    intro s
    by_cases hc : c = '%'
    · subst hc
      have hunf : likeMatch ('%' :: p) s =
          s.tails.any (fun s2 => likeMatch p s2) := by
        simp [likeMatch]
      rw [hunf, List.any_eq_true, LikeM_pct_iff]
      constructor
      · rintro ⟨s2, hmem, hm⟩
        obtain ⟨s1, rfl⟩ := (List.mem_tails s2 s).mp hmem
        exact ⟨s1, s2, rfl, (ih s2).mp hm⟩
      · rintro ⟨s1, s2, rfl, hm⟩
        exact ⟨s2, (List.mem_tails s2 _).mpr ⟨s1, rfl⟩, (ih s2).mpr hm⟩
    · rw [LikeM_cons_iff c p s hc]
      cases s with
      | nil =>
        have hunf : likeMatch (c :: p) [] = false := by
          simp [likeMatch, hc]
        simp [hunf]
      | cons d s2 =>
        have hunf : likeMatch (c :: p) (d :: s2) =
            ((c == '_' || c == d) && likeMatch p s2) := by
          simp [likeMatch, hc]
        rw [hunf]
        simp only [Bool.and_eq_true, Bool.or_eq_true, beq_iff_eq, ih s2]
        constructor
        · rintro ⟨hcd, hm⟩
          exact ⟨d, s2, rfl, hcd, hm⟩
        · rintro ⟨d1, s21, heq, hcd, hm⟩
          obtain ⟨rfl, rfl⟩ := List.cons.inj heq
          exact ⟨hcd, hm⟩

theorem LikeM_append_pct_iff (p : List Char) :
    ∀ s, LikeM (p ++ ['%']) s ↔ ∃ s1 s2, s = s1 ++ s2 ∧ LikeM p s1 := by
  induction p with
  | nil =>
    intro s
    rw [List.nil_append, LikeM_pct_iff]
    constructor
    · rintro ⟨s1, s2, rfl, hm⟩
      exact ⟨[], s1 ++ s2, rfl, LikeM.nil⟩
    · rintro ⟨s1, s2, rfl, hm⟩
      rw [LikeM_nil_iff] at hm
      subst hm
      exact ⟨s2, [], by rw [List.append_nil, List.nil_append], LikeM.nil⟩
  | cons c p ih =>
    intro s
    by_cases hc : c = '%'
    · subst hc
      rw [List.cons_append, LikeM_pct_iff]
      constructor
      · rintro ⟨a, b, rfl, hm⟩
        rw [ih b] at hm
        obtain ⟨b1, b2, rfl, hm⟩ := hm
        exact ⟨a ++ b1, b2, by rw [List.append_assoc], LikeM.pct p a b1 hm⟩
      · rintro ⟨s1, s2, rfl, hm⟩
        rw [LikeM_pct_iff] at hm
        obtain ⟨a, b, rfl, hm⟩ := hm
        refine ⟨a, b ++ s2, by rw [List.append_assoc], ?_⟩
        rw [ih (b ++ s2)]
        exact ⟨b, s2, rfl, hm⟩
    · rw [List.cons_append, LikeM_cons_iff c _ s hc]
      constructor
      · rintro ⟨d, s2, rfl, hcd, hm⟩
        rw [ih s2] at hm
        obtain ⟨a, b, rfl, hm⟩ := hm
        exact ⟨d :: a, b, rfl, LikeM.one c d p a hc hcd hm⟩
      · rintro ⟨s1, s2, rfl, hm⟩
        rw [LikeM_cons_iff c p s1 hc] at hm
        obtain ⟨d, a, rfl, hcd, hm⟩ := hm
        refine ⟨d, a ++ s2, rfl, hcd, ?_⟩
        rw [ih (a ++ s2)]
        exact ⟨a, s2, rfl, hm⟩

theorem likeMatch_pctPair_iff (p t : List Char) :
    likeMatch ('%' :: (p ++ ['%'])) t = true ↔
      ∃ l mid r, t = l ++ mid ++ r ∧ LikeM p mid := by
  rw [likeMatch_iff, LikeM_pct_iff]
  constructor
  · rintro ⟨l, rest, rfl, hm⟩
    rw [LikeM_append_pct_iff] at hm
    obtain ⟨mid, r, rfl, hm⟩ := hm
    exact ⟨l, mid, r, by rw [List.append_assoc], hm⟩
  · rintro ⟨l, mid, r, rfl, hm⟩
    refine ⟨l, mid ++ r, by rw [List.append_assoc], ?_⟩
    rw [LikeM_append_pct_iff]
    exact ⟨mid, r, rfl, hm⟩

theorem occursLike_iff (w s : String) :
    likeMatch ('%' :: (lowerChars w.data ++ ['%'])) (lowerChars s.data) = true
      ↔ OccursLike w s := by
  rw [likeMatch_pctPair_iff]
  exact Iff.rfl

theorem olike_wordHitLike (w : String) (n : Note) :
    (olike n.title w || olike n.plain_content w) = true ↔ WordHitLike w n := by
  cases ht : n.title <;> cases hp : n.plain_content <;>
    simp [olike, WordHitLike, ht, hp, occursLike_iff]

theorem textCond_iff (terms : List String) (n : Note) :
    textCond terms n = true ↔ ∀ w ∈ terms, WordHitLike w n := by
  simp only [textCond, List.all_eq_true, olike_wordHitLike]

theorem pySplit_empty : pySplit "" = [] := rfl

theorem mem_applyTextFilter (q : String) (s : List Note) (n : Note) :
    n ∈ applyTextFilter q s ↔ n ∈ s ∧ ∀ w ∈ pySplit q, WordHitLike w n := by
  unfold applyTextFilter
  by_cases hq : q.isEmpty
  · rw [if_pos hq]
    rw [String.isEmpty_iff] at hq
    subst hq
    simp [pySplit_empty]
  · rw [if_neg hq]
    simp [List.mem_filter, textCond_iff]

theorem mem_applyCategoryFilter (cid : Option String) (s : List Note) (n : Note)
    (hc : ∀ c, cid = some c → c ≠ "") :
    n ∈ applyCategoryFilter cid s ↔
      n ∈ s ∧ ∀ c, cid = some c → n.category_id = some c := by
  cases cid with
  | none => simp [applyCategoryFilter]
  | some c =>
    have hc' : ¬c.isEmpty := by
      simpa [String.isEmpty_iff] using hc c rfl
    simp [applyCategoryFilter, hc', List.mem_filter]

theorem mem_foldl_tagFilter (tids : List String) (s : List Note) (n : Note) :
    n ∈ tids.foldl (fun acc tid => acc.filter (fun m => m.tags.contains tid)) s ↔
      n ∈ s ∧ ∀ t ∈ tids, t ∈ n.tags := by
  induction tids generalizing s with
  | nil => simp
  | cons t ts ih =>
    simp only [List.foldl_cons, ih, List.mem_filter, List.mem_cons]
    constructor
    · rintro ⟨⟨hs, hmem⟩, hall⟩
      refine ⟨hs, fun x hx => ?_⟩
      rcases hx with rfl | hx
      · simpa using hmem
      · exact hall x hx
    · rintro ⟨hs, hall⟩
      exact ⟨⟨hs, by simpa using hall t (Or.inl rfl)⟩, fun x hx => hall x (Or.inr hx)⟩

theorem mem_applyTagFilter (tids : Option (List String)) (s : List Note) (n : Note) :
    n ∈ applyTagFilter tids s ↔
      n ∈ s ∧ ∀ l, tids = some l → ∀ t ∈ l, t ∈ n.tags := by
  cases tids with
  | none => simp [applyTagFilter]
  | some l =>
    by_cases hl : l.isEmpty
    · rw [List.isEmpty_iff] at hl
      subst hl
      simp [applyTagFilter]
    · have heq : applyTagFilter (some l) s =
          l.foldl (fun acc tid => acc.filter (fun m => m.tags.contains tid)) s := by
        simp [applyTagFilter, hl]
      rw [heq, mem_foldl_tagFilter]
      simp

theorem mem_applyPinnedFilter (po : Bool) (s : List Note) (n : Note) :
    n ∈ applyPinnedFilter po s ↔ n ∈ s ∧ (po = true → n.is_pinned = true) := by
  cases po <;> simp [applyPinnedFilter, List.mem_filter]

theorem applyUpdate_title_only (g : String → String) (t : String) (now : Nat)
    (n : Note) (hne : n.title ≠ some t) :
    applyUpdate g ⟨some t, none, none, none, none, none, none⟩ now n =
      { n with title := some t, modified_date := now } := by
  have hb : (n.title == some t) = false := beq_eq_false_iff_ne.mpr hne
  simp [applyUpdate, UpdateArgs.changesRow, hb]

theorem delete_fst_iff (noteId : String) (notes : List Note) :
    (Note.delete_by_id noteId notes).1 = true ↔ ∃ n ∈ notes, n.id = noteId := by
  induction notes with
  | nil => simp [Note.delete_by_id]
  | cons n rest ih =>
    by_cases hn : n.id = noteId
    · simp [Note.delete_by_id, hn]
    · simp [Note.delete_by_id, hn, ih]

theorem delete_not_found (noteId : String) (notes : List Note)
    (h : ∀ n ∈ notes, n.id ≠ noteId) :
    Note.delete_by_id noteId notes = (false, notes) := by
  induction notes with
  | nil => rfl
  | cons n rest ih =>
    have hn : n.id ≠ noteId := h n (List.mem_cons_self n rest)
    have hr := ih (fun m hm => h m (List.mem_cons_of_mem n hm))
    simp [Note.delete_by_id, hn, hr]

theorem countP_eq_of_nodup (l : List String) (hl : l.Nodup) (a : String) :
    l.countP (fun t => t == a) = if a ∈ l then 1 else 0 := by
  induction l with
  | nil => rfl
  | cons x xs ih =>
    rw [List.nodup_cons] at hl
    rw [List.countP_cons, ih hl.2]
    by_cases hx : x = a
    · subst hx
      simp [hl.1]
    · simp [hx, Ne.symm hx]

theorem countP_tagRows (notes : List Note) (tid : String)
    (h : ∀ n ∈ notes, n.tags.Nodup) :
    (notes.flatMap (fun n => n.tags.map (fun t => (n.id, t)))).countP
        (fun r => r.2 == tid) =
      notes.countP (fun n => decide (tid ∈ n.tags)) := by
  induction notes with
  | nil => rfl
  | cons n rest ih =>
    have hn := h n (List.mem_cons_self n rest)
    have hr := ih (fun m hm => h m (List.mem_cons_of_mem n hm))
    rw [List.flatMap_cons, List.countP_append, hr, List.countP_cons,
      List.countP_map]
    have hmap : ((fun r : String × String => r.2 == tid) ∘ fun t => (n.id, t)) =
        fun t => t == tid := rfl
    rw [hmap, countP_eq_of_nodup n.tags hn tid]
    by_cases hmem : tid ∈ n.tags <;> simp [hmem, Nat.add_comm]

theorem lookup_filterMap_none (key : String) (count : String → Nat)
    (rest : List TagRow) (hx : ∀ u ∈ rest, u.id ≠ key) :
    (rest.filterMap (fun u => if count u.id = 0 then none
        else some (u.id, count u.id))).lookup key = none := by
  induction rest with
  | nil => rfl
  | cons u us ih =>
    have hu : u.id ≠ key := hx u (List.mem_cons_self u us)
    have hr := ih (fun m hm => hx m (List.mem_cons_of_mem u hm))
    rw [List.filterMap_cons]
    by_cases hc : count u.id = 0
    · simp only [if_pos hc]
      exact hr
    · simp only [if_neg hc]
      rw [List.lookup_cons]
      have : (key == u.id) = false := beq_eq_false_iff_ne.mpr (Ne.symm hu)
      rw [this]
      exact hr

theorem lookup_filterMap_entry (tags : List TagRow) (count : String → Nat)
    (hN : (tags.map TagRow.id).Nodup) (t : TagRow) (ht : t ∈ tags) :
    (tags.filterMap (fun u => if count u.id = 0 then none
        else some (u.id, count u.id))).lookup t.id =
      if count t.id = 0 then none else some (count t.id) := by
  induction tags with
  | nil => cases ht
  | cons u rest ih =>
    rw [List.map_cons, List.nodup_cons] at hN
    rcases List.mem_cons.mp ht with rfl | ht
    · rw [List.filterMap_cons]
      by_cases hc : count t.id = 0
      · simp only [if_pos hc]
        exact lookup_filterMap_none t.id count rest
          (fun m hm hid => hN.1 (hid ▸ List.mem_map_of_mem TagRow.id hm))
      · simp only [if_neg hc]
        rw [List.lookup_cons]
        have : (t.id == t.id) = true := beq_self_eq_true t.id
        rw [this]
    · have hut : u.id ≠ t.id := by
        intro he
        exact hN.1 (he ▸ List.mem_map_of_mem TagRow.id ht)
      rw [List.filterMap_cons]
      by_cases hc : count u.id = 0
      · simp only [if_pos hc]
        exact ih hN.2 ht
      · simp only [if_neg hc]
        rw [List.lookup_cons]
        have : (t.id == u.id) = false := beq_eq_false_iff_ne.mpr (Ne.symm hut)
        rw [this]
        exact ih hN.2 ht

theorem lookup_categoryMap (ks : List (Option String)) (v : Option String → Nat)
    (hmem : none ∈ ks)
    (hother : ∀ k ∈ ks, k ≠ none → categoryKey k ≠ "uncategorized") :
    (ks.map (fun k => (categoryKey k, v k))).lookup "uncategorized" =
      some (v none) := by
  induction ks with
  | nil => cases hmem
  | cons k ks ih =>
    cases k with
    | none =>
      rw [List.map_cons, List.lookup_cons]
      rfl
    | some s =>
      have hk : categoryKey (some s) ≠ "uncategorized" :=
        hother (some s) (List.mem_cons_self _ _) (by simp)
      have hmem' : none ∈ ks := by
        rcases List.mem_cons.mp hmem with h | h
        · cases h
        · exact h
      rw [List.map_cons, List.lookup_cons]
      have : (("uncategorized" : String) == categoryKey (some s)) = false :=
        beq_eq_false_iff_ne.mpr (Ne.symm hk)
      rw [this]
      exact ih hmem' (fun m hm => hother m (List.mem_cons_of_mem _ hm))

theorem delete_removes (noteId : String) (notes : List Note)
    (h : (notes.map Note.id).Nodup) :
    ∀ m ∈ (Note.delete_by_id noteId notes).2, m.id ≠ noteId := by
  induction notes with
  | nil => simp [Note.delete_by_id]
  | cons n rest ih =>
    rw [List.map_cons, List.nodup_cons] at h
    by_cases hn : n.id = noteId
    · intro m hm
      rw [Note.delete_by_id, if_pos hn] at hm
      intro hmid
      exact h.1 (hn ▸ hmid ▸ List.mem_map_of_mem Note.id hm)
    · intro m hm
      rw [Note.delete_by_id, if_neg hn] at hm
      rcases List.mem_cons.mp hm with rfl | hm
      · exact hn
      · exact ih h.2 m hm

end DBModel

namespace ModernApp

theorem digitVal_digitChar : ∀ k, k < 10 → digitVal (Nat.digitChar k) = k := by
  decide

theorem isDigit_digitChar : ∀ k, k < 10 → (Nat.digitChar k).isDigit = true := by
  decide

theorem parse2_pad2 (n : Nat) (h : n < 100) :
    parse2 (Nat.digitChar (n / 10 % 10)) (Nat.digitChar (n % 10)) = some n := by
  have h1 : n / 10 % 10 < 10 := Nat.mod_lt _ (by omega)
  have h2 : n % 10 < 10 := Nat.mod_lt _ (by omega)
  simp [parse2, isDigit_digitChar _ h1, isDigit_digitChar _ h2,
    digitVal_digitChar _ h1, digitVal_digitChar _ h2]
  omega

theorem parse4_pad4 (n : Nat) (h : n < 10000) :
    parse4 (Nat.digitChar (n / 1000 % 10)) (Nat.digitChar (n / 100 % 10))
      (Nat.digitChar (n / 10 % 10)) (Nat.digitChar (n % 10)) = some n := by
  have h1 : n / 1000 % 10 < 10 := Nat.mod_lt _ (by omega)
  have h2 : n / 100 % 10 < 10 := Nat.mod_lt _ (by omega)
  have h3 : n / 10 % 10 < 10 := Nat.mod_lt _ (by omega)
  have h4 : n % 10 < 10 := Nat.mod_lt _ (by omega)
  simp [parse4, isDigit_digitChar _ h1, isDigit_digitChar _ h2,
    isDigit_digitChar _ h3, isDigit_digitChar _ h4,
    digitVal_digitChar _ h1, digitVal_digitChar _ h2,
    digitVal_digitChar _ h3, digitVal_digitChar _ h4]
  omega

theorem parse6_pad6 (n : Nat) (h : n < 1000000) :
    parse6 (Nat.digitChar (n / 100000 % 10)) (Nat.digitChar (n / 10000 % 10))
      (Nat.digitChar (n / 1000 % 10)) (Nat.digitChar (n / 100 % 10))
      (Nat.digitChar (n / 10 % 10)) (Nat.digitChar (n % 10)) = some n := by
  have h1 : n / 100000 % 10 < 10 := Nat.mod_lt _ (by omega)
  have h2 : n / 10000 % 10 < 10 := Nat.mod_lt _ (by omega)
  have h3 : n / 1000 % 10 < 10 := Nat.mod_lt _ (by omega)
  have h4 : n / 100 % 10 < 10 := Nat.mod_lt _ (by omega)
  have h5 : n / 10 % 10 < 10 := Nat.mod_lt _ (by omega)
  have h6 : n % 10 < 10 := Nat.mod_lt _ (by omega)
  simp [parse6, isDigit_digitChar _ h1, isDigit_digitChar _ h2,
    isDigit_digitChar _ h3, isDigit_digitChar _ h4,
    isDigit_digitChar _ h5, isDigit_digitChar _ h6,
    digitVal_digitChar _ h1, digitVal_digitChar _ h2,
    digitVal_digitChar _ h3, digitVal_digitChar _ h4,
    digitVal_digitChar _ h5, digitVal_digitChar _ h6]
  omega

theorem parseIsoChars_isoChars (d : PyDateTime) (h : d.Valid) :
    parseIsoChars (isoChars d) = some d := by
  obtain ⟨y, mo, da, ho, mi, se, us⟩ := d
  simp only [PyDateTime.Valid] at h
  obtain ⟨hy0, hy, hmo0, hmo, hda0, hda, hho, hmi, hse, hus⟩ := h
  have e4 := parse4_pad4 y (by omega)
  have emo := parse2_pad2 mo (by omega)
  have eda := parse2_pad2 da (by omega)
  have eho := parse2_pad2 ho (by omega)
  have emi := parse2_pad2 mi (by omega)
  have ese := parse2_pad2 se (by omega)
  by_cases h0 : us = 0
  · subst h0
    simp [isoChars, pad4, pad2, pad6, parseIsoChars, e4, emo, eda, eho, emi, ese]
  · have e6 := parse6_pad6 us (by omega)
    simp [isoChars, pad4, pad2, pad6, parseIsoChars, h0, e4, emo, eda, eho,
      emi, ese, e6]

theorem fromisoformat_isoformat (d : PyDateTime) (h : d.Valid) :
    PyDateTime.fromisoformat d.isoformat = some d :=
  parseIsoChars_isoChars d h

theorem pyOrEmptyList_some (ts : List String) : pyOrEmptyList (some ts) = ts := by
  cases ts <;> rfl

theorem from_dict_to_dict (n : Note) (h1 : n.created_date.Valid)
    (h2 : n.modified_date.Valid) :
    Note.from_dict (Note.to_dict n) = some n := by
  simp [Note.from_dict, Note.to_dict, fromisoformat_isoformat _ h1,
    fromisoformat_isoformat _ h2, Note.new, pyOrEmptyList_some]

theorem parseAll_map_to_dict (notes : List Note)
    (h : ∀ n ∈ notes, n.created_date.Valid ∧ n.modified_date.Valid) :
    parseAll (notes.map Note.to_dict) = some notes := by
  induction notes with
  | nil => rfl
  | cons n rest ih =>
    have hn := h n (List.mem_cons_self n rest)
    have hr := ih (fun m hm => h m (List.mem_cons_of_mem n hm))
    rw [List.map_cons, parseAll, from_dict_to_dict n hn.1 hn.2, hr]

theorem pyLe_refl (d : PyDateTime) : d.le d := Nat.le_refl _

theorem pyLe_trans {a b c : PyDateTime} (h1 : a.le b) (h2 : b.le c) :
    a.le c := Nat.le_trans h1 h2

theorem reachable_inv (n : Note) (h : ReachableNote n) :
    n.created_date.Valid ∧ n.modified_date.Valid ∧
      n.created_date.le n.modified_date := by
  induction h with
  | init ti co ic tg ca t ht => exact ⟨ht, ht, pyLe_refl t⟩
  | touch m c t hm ht hmono ih => exact ⟨ih.1, ht, pyLe_trans ih.2.2 hmono⟩
  | reload m m2 hm hdict ih =>
    rw [from_dict_to_dict m ih.1 ih.2.1] at hdict
    obtain rfl := Option.some.inj hdict
    exact ih

end ModernApp

/-- C3: a successful update that supplies only a genuinely new title (the
update flushes no UPDATE, so bumps no timestamp, when the supplied value
equals the current one) rewrites exactly the first note carrying the id:
its title becomes the new title, its modified timestamp becomes the current
time, every other field of that note and every other note of the store are
unchanged. -/
theorem claim3_update_title_only (g : String → String) (noteId t : String)
    (now : Nat) (notes out : List DBModel.Note)
    (hnew : ∀ y ∈ notes, y.id = noteId → y.title ≠ some t)
    (h : DBModel.Note.update g noteId
        ⟨some t, none, none, none, none, none, none⟩ now notes = .ok out) :
    ∃ pre x post, notes = pre ++ x :: post ∧ (∀ y ∈ pre, y.id ≠ noteId) ∧
      x.id = noteId ∧
      out = pre ++ { x with title := some t, modified_date := now } :: post := by
  induction notes generalizing out with
  | nil => exact absurd h (by simp [DBModel.Note.update])
  | cons n rest ih =>
    rw [DBModel.Note.update] at h
    by_cases hn : n.id = noteId
    · rw [if_pos hn] at h
      rw [DBModel.applyUpdate_title_only g t now n
        (hnew n (List.mem_cons_self n rest) hn)] at h
      refine ⟨[], n, rest, rfl, by simp, hn, ?_⟩
      simpa using (Except.ok.inj h).symm
    · rw [if_neg hn] at h
      cases hrec : DBModel.Note.update g noteId
          ⟨some t, none, none, none, none, none, none⟩ now rest with
      | ok out2 =>
        rw [hrec] at h
        obtain ⟨pre, x, post, hsplit, hpre, hx, hout⟩ :=
          ih out2 (fun y hy => hnew y (List.mem_cons_of_mem n hy)) hrec
        refine ⟨n :: pre, x, post, by rw [hsplit]; rfl, ?_, hx, ?_⟩
        · intro y hy
          rcases List.mem_cons.mp hy with rfl | hy
          · exact hn
          · exact hpre y hy
        · rw [← Except.ok.inj h, hout]
          rfl
      | error e =>
        rw [hrec] at h
        exact absurd h (by simp)

/-- Witness for C3: updating the title of note b in a two-note store. -/
theorem claim3_update_title_only_witness :
    (∀ y ∈ [(⟨"a", some "ta", none, none, 0, 1, none, false, none, []⟩ :
          DBModel.Note),
        ⟨"b", some "tb", some "cb", some "pb", 2, 3, some "red", true,
          some "cat", ["t1"]⟩], y.id = "b" → y.title ≠ some "X") ∧
    (DBModel.Note.update (fun s => s) "b"
        ⟨some "X", none, none, none, none, none, none⟩ 9
        [⟨"a", some "ta", none, none, 0, 1, none, false, none, []⟩,
         ⟨"b", some "tb", some "cb", some "pb", 2, 3, some "red", true,
          some "cat", ["t1"]⟩] =
      .ok [⟨"a", some "ta", none, none, 0, 1, none, false, none, []⟩,
           ⟨"b", some "X", some "cb", some "pb", 2, 9, some "red", true,
            some "cat", ["t1"]⟩]) ∧
    (∃ pre x post,
      ([⟨"a", some "ta", none, none, 0, 1, none, false, none, []⟩,
        ⟨"b", some "tb", some "cb", some "pb", 2, 3, some "red", true,
         some "cat", ["t1"]⟩] : List DBModel.Note) = pre ++ x :: post ∧
      (∀ y ∈ pre, y.id ≠ "b") ∧ x.id = "b" ∧
      [⟨"a", some "ta", none, none, 0, 1, none, false, none, []⟩,
       ⟨"b", some "X", some "cb", some "pb", 2, 9, some "red", true,
        some "cat", ["t1"]⟩] =
        pre ++ { x with title := some "X", modified_date := 9 } :: post) :=
  ⟨by decide, rfl,
   claim3_update_title_only (fun s => s) "b" "X" 9 _ _ (by decide) rfl⟩

/-- C4 counterexample: `toggle_pin` on an id absent from the store returns
normally (with the receiver's current flag) instead of raising a not-found
condition, refuting the claim that both mutation endpoints raise. -/
theorem claim4_toggle_pin_counterexample :
    ¬ ∃ e, DBModel.Note.toggle_pin "x" false 0 ([] : List DBModel.Note) =
      Except.error e := by
  rintro ⟨e, h⟩
  simp [DBModel.Note.toggle_pin] at h

/-- C4 amended: on an id that matches no note, `update` raises the
not-found condition and the store is unchanged (no updated store is
produced), while `toggle_pin` returns normally with the receiver's current
pinned flag and the unchanged store. -/
theorem claim4_unknown_id (g : String → String) (noteId : String)
    (u : DBModel.UpdateArgs) (now : Nat) (selfPinned : Bool)
    (notes : List DBModel.Note) (h : ∀ n ∈ notes, n.id ≠ noteId) :
    (∃ e, DBModel.Note.update g noteId u now notes = .error e) ∧
    DBModel.Note.toggle_pin noteId selfPinned now notes =
      .ok (selfPinned, notes) := by
  induction notes with
  | nil => exact ⟨⟨"not found", rfl⟩, rfl⟩
  | cons n rest ih =>
    have hn : n.id ≠ noteId := h n (List.mem_cons_self n rest)
    obtain ⟨⟨e, he⟩, ht⟩ := ih (fun m hm => h m (List.mem_cons_of_mem n hm))
    refine ⟨⟨e, ?_⟩, ?_⟩
    · rw [DBModel.Note.update, if_neg hn, he]
    · rw [DBModel.Note.toggle_pin, if_neg hn, ht]

/-- Witness for the amended C4 on a concrete one-note store. -/
theorem claim4_unknown_id_witness :
    (∀ n ∈ [(⟨"a", none, none, none, 0, 1, none, false, none, []⟩ :
        DBModel.Note)], n.id ≠ "zzz") ∧
    ((∃ e, DBModel.Note.update (fun s => s) "zzz"
        ⟨none, none, none, none, some true, none, none⟩ 7
        [⟨"a", none, none, none, 0, 1, none, false, none, []⟩] = .error e) ∧
      DBModel.Note.toggle_pin "zzz" true 7
        [⟨"a", none, none, none, 0, 1, none, false, none, []⟩] =
        .ok (true, [⟨"a", none, none, none, 0, 1, none, false, none, []⟩])) :=
  ⟨by decide,
   claim4_unknown_id (fun s => s) "zzz"
     ⟨none, none, none, none, some true, none, none⟩ 7 true _ (by decide)⟩

/-- C6: with the primary-key uniqueness of ids, deleting the same id twice
returns false the second time; the first return value reports whether a
note with the id existed; and an unknown id leaves the store unchanged
(the function is total: it never raises). -/
theorem claim6_delete_idempotent (noteId : String) (notes : List DBModel.Note)
    (h : (notes.map DBModel.Note.id).Nodup) :
    (DBModel.Note.delete_by_id noteId
        (DBModel.Note.delete_by_id noteId notes).2).1 = false ∧
    ((DBModel.Note.delete_by_id noteId notes).1 = true ↔
      ∃ n ∈ notes, n.id = noteId) ∧
    ((DBModel.Note.delete_by_id noteId notes).1 = false →
      (DBModel.Note.delete_by_id noteId notes).2 = notes) := by
  refine ⟨?_, DBModel.delete_fst_iff noteId notes, ?_⟩
  · have hnone := DBModel.delete_removes noteId notes h
    have := DBModel.delete_not_found noteId _ hnone
    rw [this]
  · intro hfalse
    have hno : ∀ n ∈ notes, n.id ≠ noteId := by
      intro n hn hid
      have : (DBModel.Note.delete_by_id noteId notes).1 = true :=
        (DBModel.delete_fst_iff noteId notes).mpr ⟨n, hn, hid⟩
      rw [hfalse] at this
      cases this
    rw [DBModel.delete_not_found noteId notes hno]

/-- Witness for C6: double delete of note a in a two-note store. -/
theorem claim6_delete_idempotent_witness :
    (([⟨"a", none, none, none, 0, 1, none, false, none, []⟩,
       ⟨"b", none, none, none, 0, 2, none, false, none, []⟩] :
        List DBModel.Note).map DBModel.Note.id).Nodup ∧
    ((DBModel.Note.delete_by_id "a"
        (DBModel.Note.delete_by_id "a"
          [⟨"a", none, none, none, 0, 1, none, false, none, []⟩,
           ⟨"b", none, none, none, 0, 2, none, false, none, []⟩]).2).1 = false ∧
      ((DBModel.Note.delete_by_id "a"
          [⟨"a", none, none, none, 0, 1, none, false, none, []⟩,
           ⟨"b", none, none, none, 0, 2, none, false, none, []⟩]).1 = true ↔
        ∃ n ∈ ([⟨"a", none, none, none, 0, 1, none, false, none, []⟩,
                ⟨"b", none, none, none, 0, 2, none, false, none, []⟩] :
            List DBModel.Note), n.id = "a") ∧
      ((DBModel.Note.delete_by_id "a"
          [⟨"a", none, none, none, 0, 1, none, false, none, []⟩,
           ⟨"b", none, none, none, 0, 2, none, false, none, []⟩]).1 = false →
        (DBModel.Note.delete_by_id "a"
          [⟨"a", none, none, none, 0, 1, none, false, none, []⟩,
           ⟨"b", none, none, none, 0, 2, none, false, none, []⟩]).2 =
          [⟨"a", none, none, none, 0, 1, none, false, none, []⟩,
           ⟨"b", none, none, none, 0, 2, none, false, none, []⟩])) :=
  ⟨by decide, claim6_delete_idempotent "a" _ (by decide)⟩

/-- C1: `Note.get_all` returns all notes, ordered so that every pinned note
precedes every unpinned note, and within each pinned group the modified
timestamps are non-increasing (hence a pinned note with an older modified
timestamp precedes an unpinned note with a newer one). -/
theorem claim1_get_all_ordering (notes : List DBModel.Note) :
    (DBModel.Note.get_all notes).Perm notes ∧
    (DBModel.Note.get_all notes).Pairwise DBModel.specOrder :=
  ⟨DBModel.sortNotes_perm notes, DBModel.sortNotes_pairwise notes⟩

/-- C2 counterexample: the claim reads the text match as a literal
case-insensitive substring test, but the code interpolates the word
unescaped into `ILIKE '%word%'`, so an underscore in the word is a
single-character wildcard: searching foo_bar returns a note whose content
is fooXbar, although foo_bar is not a substring of it. -/
theorem claim2_substring_counterexample :
    (⟨"a", none, none, some "fooXbar", 0, 0, none, false, none, []⟩ :
        DBModel.Note) ∈
      DBModel.Note.search "foo_bar" none none false
        [⟨"a", none, none, some "fooXbar", 0, 0, none, false, none, []⟩] ∧
    ¬ DBModel.SearchMatch "foo_bar" none none false
        ⟨"a", none, none, some "fooXbar", 0, 0, none, false, none, []⟩ := by
  constructor
  · rw [show DBModel.Note.search "foo_bar" none none false
          [⟨"a", none, none, some "fooXbar", 0, 0, none, false, none, []⟩] =
        DBModel.sortNotes
          (DBModel.applyPinnedFilter false
            (DBModel.applyTagFilter none
              (DBModel.applyCategoryFilter none
                (DBModel.applyTextFilter "foo_bar"
                  [⟨"a", none, none, some "fooXbar", 0, 0, none, false, none,
                    []⟩])))) from rfl]
    rw [(DBModel.sortNotes_perm _).mem_iff]
    decide
  · intro hsm
    have hw := hsm.1 "foo_bar" (by decide)
    rcases hw with ⟨t, ht, -⟩ | ⟨p, hp, hocc⟩
    · cases ht
    · obtain rfl := Option.some.inj hp
      obtain ⟨l, r, hlr⟩ := hocc
      have h1 : (DBModel.lowerChars ("fooXbar" : String).data).length = 7 := rfl
      have h2 : (DBModel.lowerChars ("foo_bar" : String).data).length = 7 := rfl
      have hlen := congrArg List.length hlr
      rw [h1, List.length_append, List.length_append, h2] at hlen
      have hl : l = [] := List.length_eq_zero.mp (by omega)
      have hr : r = [] := List.length_eq_zero.mp (by omega)
      subst hl
      subst hr
      rw [List.nil_append, List.append_nil] at hlr
      exact absurd hlr (by decide)

/-- C2 as amended: for a non-empty search text, `Note.search` returns
exactly the notes for which every word of the text — read as a LIKE
fragment, in which `%` matches any character run and `_` any single
character, since the code interpolates the word unescaped into
`ILIKE '%word%'` — matches some segment of the title or of the plain
content case-insensitively, conjoined with the category, tag-membership and
pinned filters, ordered as `get_all` orders (the hypothesis on
`category_id` excludes the degenerate empty-string id, which Python
truthiness treats like no filter). -/
theorem claim2_search_like_characterisation (q : String) (cid : Option String)
    (tids : Option (List String)) (po : Bool) (notes : List DBModel.Note)
    (_hq : q ≠ "") (hc : ∀ c, cid = some c → c ≠ "") :
    (∀ n, n ∈ DBModel.Note.search q cid tids po notes ↔
        n ∈ notes ∧ DBModel.SearchMatchLike q cid tids po n) ∧
    (DBModel.Note.search q cid tids po notes).Pairwise DBModel.specOrder := by
  constructor
  · intro n
    rw [show DBModel.Note.search q cid tids po notes =
          DBModel.sortNotes
            (DBModel.applyPinnedFilter po
              (DBModel.applyTagFilter tids
                (DBModel.applyCategoryFilter cid
                  (DBModel.applyTextFilter q notes)))) from rfl]
    rw [(DBModel.sortNotes_perm _).mem_iff, DBModel.mem_applyPinnedFilter,
      DBModel.mem_applyTagFilter, DBModel.mem_applyCategoryFilter _ _ _ hc,
      DBModel.mem_applyTextFilter, DBModel.SearchMatchLike]
    tauto
  · exact DBModel.sortNotes_pairwise _

/-- Witness for the amended C2 at a concrete store and the query text
hello world. -/
theorem claim2_search_like_witness :
    (("hello world" : String) ≠ "") ∧
    ((∀ n, n ∈ DBModel.Note.search "hello world" none none false
          [⟨"a", some "Hello there", none, some "a World apart", 0, 5, none,
            false, none, []⟩,
           ⟨"b", some "hello only", none, some "nothing else", 0, 7, none,
            false, none, []⟩] ↔
        n ∈ [⟨"a", some "Hello there", none, some "a World apart", 0, 5, none,
            false, none, []⟩,
           ⟨"b", some "hello only", none, some "nothing else", 0, 7, none,
            false, none, []⟩] ∧
          DBModel.SearchMatchLike "hello world" none none false n) ∧
      (DBModel.Note.search "hello world" none none false
          [⟨"a", some "Hello there", none, some "a World apart", 0, 5, none,
            false, none, []⟩,
           ⟨"b", some "hello only", none, some "nothing else", 0, 7, none,
            false, none, []⟩]).Pairwise DBModel.specOrder) :=
  ⟨by decide,
   claim2_search_like_characterisation "hello world" none none false _
     (by decide) (by intro c h; cases h)⟩

/-- C7: searching with empty text and no category, tag or pinned filter
returns exactly the sequence `get_all` returns. -/
theorem claim7_empty_search_is_get_all (notes : List DBModel.Note) :
    DBModel.Note.search "" none none false notes = DBModel.Note.get_all notes := rfl

/-- C5: loading a saved document reconstructs exactly the notes, categories
and tags that were saved — every field of every note round-trips, the two
timestamps included, through their ISO textual encoding. -/
theorem claim5_save_load_roundtrip (now : ModernApp.PyDateTime)
    (notes : List ModernApp.Note) (cats tags : List String)
    (h : ∀ n ∈ notes, n.created_date.Valid ∧ n.modified_date.Valid) :
    ModernApp.load_notes now (some (ModernApp.save_notes notes cats tags)) =
      (notes, cats, tags) := by
  simp [ModernApp.load_notes, ModernApp.save_notes,
    ModernApp.parseAll_map_to_dict notes h]

/-- Witness for C5: a one-note store with microsecond timestamps. -/
theorem claim5_save_load_roundtrip_witness :
    (∀ n ∈ [ModernApp.Note.mk "t" "c" false ["x"] (some "cat")
        ⟨2024, 5, 6, 7, 8, 9, 0⟩ ⟨2024, 5, 6, 7, 8, 10, 500⟩],
      n.created_date.Valid ∧ n.modified_date.Valid) ∧
    ModernApp.load_notes ⟨2024, 1, 1, 0, 0, 0, 0⟩
        (some (ModernApp.save_notes
          [ModernApp.Note.mk "t" "c" false ["x"] (some "cat")
            ⟨2024, 5, 6, 7, 8, 9, 0⟩ ⟨2024, 5, 6, 7, 8, 10, 500⟩]
          ["c1"] ["t1"])) =
      ([ModernApp.Note.mk "t" "c" false ["x"] (some "cat")
          ⟨2024, 5, 6, 7, 8, 9, 0⟩ ⟨2024, 5, 6, 7, 8, 10, 500⟩],
        ["c1"], ["t1"]) :=
  ⟨by decide, claim5_save_load_roundtrip _ _ _ _ (by decide)⟩

/-- C8: every note reachable in the application lifecycle (created fresh,
content-saved under a monotone clock, or recovered from its persisted form)
has its modified timestamp at or after its created timestamp, and the note
it round-trips to through the durable encoding does too. -/
theorem claim8_modified_ge_created (n : ModernApp.Note)
    (h : ModernApp.ReachableNote n) :
    n.created_date.le n.modified_date ∧
    ∀ m, ModernApp.Note.from_dict (ModernApp.Note.to_dict n) = some m →
      m.created_date.le m.modified_date := by
  have inv := ModernApp.reachable_inv n h
  refine ⟨inv.2.2, fun m hm => ?_⟩
  rw [ModernApp.from_dict_to_dict n inv.1 inv.2.1] at hm
  obtain rfl := Option.some.inj hm
  exact inv.2.2

/-- Witness for C8: a freshly created note. -/
theorem claim8_modified_ge_created_witness :
    ModernApp.ReachableNote
      (ModernApp.Note.new "t" "c" false none none ⟨2024, 5, 6, 7, 8, 9, 0⟩) ∧
    ((ModernApp.Note.new "t" "c" false none none
        ⟨2024, 5, 6, 7, 8, 9, 0⟩).created_date.le
      (ModernApp.Note.new "t" "c" false none none
        ⟨2024, 5, 6, 7, 8, 9, 0⟩).modified_date ∧
    ∀ m, ModernApp.Note.from_dict (ModernApp.Note.to_dict
        (ModernApp.Note.new "t" "c" false none none
          ⟨2024, 5, 6, 7, 8, 9, 0⟩)) = some m →
      m.created_date.le m.modified_date) :=
  ⟨ModernApp.ReachableNote.init "t" "c" false none none _ (by decide),
   claim8_modified_ge_created _
     (ModernApp.ReachableNote.init "t" "c" false none none _ (by decide))⟩

/-- C9: loading when the durable store does not exist yet yields exactly the
two seed notes, of which exactly one is a code note and exactly one is a
rich-text note. -/
theorem claim9_seed_set (now : ModernApp.PyDateTime) :
    (ModernApp.load_notes now none).1.length = 2 ∧
    ((ModernApp.load_notes now none).1.filter (fun n => n.is_code)).length = 1 ∧
    ((ModernApp.load_notes now none).1.filter
      (fun n => !n.is_code)).length = 1 :=
  ⟨rfl, rfl, rfl⟩

/-- C10: under the schema constraints (unique tag ids, no duplicate rows in
the association table), the `count_by_tag` mapping has an entry for a tag
exactly when at least one note references it — the entry then counting the
referencing notes, a tag with zero references being absent rather than
mapped to 0 — while `count_by_category` groups the uncategorized notes
under the sentinel key. -/
theorem claim10_count_by_tag_entries (db : DBModel.DB)
    (htags : (db.tags.map DBModel.TagRow.id).Nodup)
    (hnodup : ∀ n ∈ db.notes, n.tags.Nodup)
    (hcat : ∀ n ∈ db.notes, n.category_id ≠ some "" ∧
        n.category_id ≠ some "uncategorized") :
    (∀ t ∈ db.tags,
      (DBModel.Note.count_by_tag db).lookup t.id =
        if DBModel.tagRefCount db t.id = 0 then none
        else some (DBModel.tagRefCount db t.id)) ∧
    ((∃ n ∈ db.notes, n.category_id = none) →
      (DBModel.Note.count_by_category db).lookup "uncategorized" =
        some (db.notes.countP
          (fun n => n.category_id == (none : Option String)))) := by
  constructor
  · intro t ht
    have hcnt : (DBModel.noteTagRows db).countP (fun r => r.2 == t.id) =
        db.notes.countP (fun n => decide (t.id ∈ n.tags)) :=
      DBModel.countP_tagRows db.notes t.id hnodup
    calc (DBModel.Note.count_by_tag db).lookup t.id
        = if (DBModel.noteTagRows db).countP (fun r => r.2 == t.id) = 0
          then none
          else some ((DBModel.noteTagRows db).countP (fun r => r.2 == t.id)) :=
          DBModel.lookup_filterMap_entry db.tags
            (fun s => (DBModel.noteTagRows db).countP
              (fun r : String × String => r.2 == s))
            htags t ht
      _ = if DBModel.tagRefCount db t.id = 0 then none
          else some (DBModel.tagRefCount db t.id) := by rw [hcnt]; rfl
  · rintro ⟨n0, hn0, hcat0⟩
    have hmem : (none : Option String) ∈
        (db.notes.map (fun n => n.category_id)).dedup := by
      rw [List.mem_dedup]
      exact hcat0 ▸ List.mem_map_of_mem (fun n => n.category_id) hn0
    have hother : ∀ k ∈ (db.notes.map (fun n => n.category_id)).dedup,
        k ≠ none → DBModel.categoryKey k ≠ "uncategorized" := by
      intro k hk hkne
      rw [List.mem_dedup, List.mem_map] at hk
      obtain ⟨m, hm, rfl⟩ := hk
      cases hmc : m.category_id with
      | none => exact absurd hmc hkne
      | some s =>
        have hs := hcat m hm
        rw [hmc] at hs
        have hs1 : ¬s = "" := fun he => hs.1 (by rw [he])
        have hs2 : ¬s = "uncategorized" := fun he => hs.2 (by rw [he])
        simp [DBModel.categoryKey, String.isEmpty_iff, hs1, hs2]
    exact DBModel.lookup_categoryMap _
      (fun k => db.notes.countP (fun n => n.category_id == k)) hmem hother

/-- Witness for C10: one note tagged t1 and uncategorized, a tags table
holding t1 and the unreferenced t2. -/
theorem claim10_count_by_tag_entries_witness :
    ((([⟨"t1", "python", none⟩, ⟨"t2", "misc", none⟩] :
        List DBModel.TagRow).map DBModel.TagRow.id).Nodup ∧
      (∀ n ∈ [(⟨"n1", none, none, none, 0, 1, none, false, none, ["t1"]⟩ :
          DBModel.Note)], n.tags.Nodup) ∧
      (∀ n ∈ [(⟨"n1", none, none, none, 0, 1, none, false, none, ["t1"]⟩ :
          DBModel.Note)], n.category_id ≠ some "" ∧
        n.category_id ≠ some "uncategorized")) ∧
    ((∀ t ∈ ([⟨"t1", "python", none⟩, ⟨"t2", "misc", none⟩] :
        List DBModel.TagRow),
      (DBModel.Note.count_by_tag
          ⟨[⟨"n1", none, none, none, 0, 1, none, false, none, ["t1"]⟩],
           [⟨"t1", "python", none⟩, ⟨"t2", "misc", none⟩]⟩).lookup t.id =
        if DBModel.tagRefCount
            ⟨[⟨"n1", none, none, none, 0, 1, none, false, none, ["t1"]⟩],
             [⟨"t1", "python", none⟩, ⟨"t2", "misc", none⟩]⟩ t.id = 0
        then none
        else some (DBModel.tagRefCount
            ⟨[⟨"n1", none, none, none, 0, 1, none, false, none, ["t1"]⟩],
             [⟨"t1", "python", none⟩, ⟨"t2", "misc", none⟩]⟩ t.id)) ∧
    ((∃ n ∈ [(⟨"n1", none, none, none, 0, 1, none, false, none, ["t1"]⟩ :
        DBModel.Note)], n.category_id = none) →
      (DBModel.Note.count_by_category
          ⟨[⟨"n1", none, none, none, 0, 1, none, false, none, ["t1"]⟩],
           [⟨"t1", "python", none⟩, ⟨"t2", "misc", none⟩]⟩).lookup
          "uncategorized" =
        some ([(⟨"n1", none, none, none, 0, 1, none, false, none, ["t1"]⟩ :
            DBModel.Note)].countP
          (fun n => n.category_id == (none : Option String))))) :=
  ⟨⟨by decide, by decide, by decide⟩,
   claim10_count_by_tag_entries
     ⟨[⟨"n1", none, none, none, 0, 1, none, false, none, ["t1"]⟩],
      [⟨"t1", "python", none⟩, ⟨"t2", "misc", none⟩]⟩
     (by decide) (by decide) (by decide)⟩
